import Mathlib

/-!
Verification of the `rewriter` repository (src/assets/rewrite.py).

The Python source is shallowly embedded: Python strings are `List Char`
(Unicode code points), `None`-returning fallible functions become `Option`,
and the asyncio concurrency layer is modelled as an explicit small-step
machine driven by an arbitrary schedule.  Model notes:

* `str.strip()` is modelled via `Char.isWhitespace` (ASCII whitespace); the
  extra Unicode space characters CPython strips play no role in any claim.
* `str.upper()` appears at two levels.  As the string-level uppercasing
  operation it is modelled by `pyUpper`, which includes CPython's expanding
  special case `'ß' → "SS"` (the full Unicode special-casing table has
  further non-ASCII entries; on the ASCII range the model is exact).
  Inside `get_flag_emoji`, where the code has already passed the length-2
  test, uppercasing is modelled code-point-wise by `Char.toUpper`, exact on
  ASCII inputs.
* the regex `@(.+?):(\d+)` of `extract_host_and_base_link` is embedded
  directly as a leftmost, lazy scanning function (`searchLink`); `.` does
  not match a newline and `\d` is modelled as an ASCII digit.
* `chr(n)` is modelled by `Char.ofNat`; for every value actually produced by
  the flag function on code points up to 986714 the argument is a valid
  scalar value, so the model agrees with CPython there (beyond that CPython
  raises `ValueError`).
-/

namespace Rewriter

/-- Convert a string literal to the `List Char` representation used by the
embedding. -/
def toL (s : String) : List Char := s.toList

/-- Python `str.strip()`: drop whitespace from both ends. -/
def pyStrip (s : List Char) : List Char :=
  ((s.dropWhile Char.isWhitespace).reverse.dropWhile Char.isWhitespace).reverse

/-- Python `str.strip('[]')`: drop `[` and `]` characters from both ends. -/
def stripBrackets (s : List Char) : List Char :=
  ((s.dropWhile (fun c => c = '[' || c = ']')).reverse.dropWhile
      (fun c => c = '[' || c = ']')).reverse

/-- Python `link.split('#')[0]`: everything before the first `#`. -/
def beforeHash (s : List Char) : List Char :=
  s.takeWhile (fun c => c ≠ '#')

/-- The unknown-country sentinel `"xXx"` used by `get_country_code` and
`process_link`. -/
def sentinel : List Char := toL "xXx"

/-- The fixed literal placed between the country code and the ordinal in the
display name (`f"{flag}{country_code}  ROSE—{index:02d}"`). -/
def sepTag : List Char := toL "  ROSE—"

/-- Python `f"{index:02d}"`: decimal digits zero-padded to width at least 2. -/
def format02 (n : Nat) : List Char :=
  let d := Nat.toDigits 10 n
  List.replicate (2 - d.length) '0' ++ d

/-! ## Flag rendering (`get_flag_emoji`) -/

/-- One step of the code-point offset trick of `get_flag_emoji`:
`chr(0x1F1E6 + ord(char) - ord('A'))`.  The sum is taken before the
subtraction, exactly as CPython evaluates the integer expression. -/
def regionalChar (c : Char) : Char :=
  Char.ofNat (0x1F1E6 + c.toNat - 65)

/-- Embedding of `get_flag_emoji`: a falsy or non-length-2 code renders the
fixed unknown glyph; otherwise the code is uppercased and every character is
mapped through the regional-indicator offset.  Note the source applies the
offset to *every* character of a length-2 code, alphabetic or not. -/
def get_flag_emoji (country_code : List Char) : List Char :=
  if country_code.isEmpty || country_code.length ≠ 2 then
    ['❓']
  else
    (country_code.map Char.toUpper).map regionalChar

example : get_flag_emoji (toL "US") = ['🇺', '🇸'] := by decide
example : get_flag_emoji (toL "us") = ['🇺', '🇸'] := by decide
example : get_flag_emoji sentinel = ['❓'] := by decide
example : get_flag_emoji [] = ['❓'] := by decide

/-- CPython `str.upper()` of a single character, as a string: the ASCII
case mapping is exact, and the expanding special case `'ß' → "SS"`
(U+00DF, LATIN SMALL LETTER SHARP S) is included.  CPython's full Unicode
special-casing table has further non-ASCII entries; on the ASCII range this
model is exactly CPython. -/
def pyUpperChar (c : Char) : List Char :=
  if c = 'ß' then toL "SS" else [c.toUpper]

/-- CPython `str.upper()` of a string: uppercase every character, where a
character may uppercase to more than one character, and concatenate.  In
particular `pyUpper` is not length-preserving: `pyUpper "ß" = "SS"`. -/
def pyUpper (s : List Char) : List Char :=
  (s.map pyUpperChar).flatten

example : pyUpper (toL "ß") = toL "SS" := by decide
example : pyUpper (toL "us") = toL "US" := by decide

/-! ## Link parser (`extract_host_and_base_link`) -/

/-- Does the list start with a decimal digit?  This is the `(\d+)` part of
the regex: one digit suffices for the match to complete. -/
def digitNext : List Char → Bool
  | d :: _ => d.isDigit
  | [] => false

/-- Lazy completion of the regex `@(.+?):(\d+)` immediately after an `@`:
find the shortest nonempty newline-free host `acc ++ …` that is followed by
a `:` and a decimal digit.  `none` means the regex cannot complete at this
`@` (the engine then moves on to the next `@`). -/
def findHostEnd (acc : List Char) : List Char → Option (List Char)
  | [] => none
  | c :: rest =>
    if acc ≠ [] ∧ c = ':' ∧ digitNext rest then
      some acc
    else if c = '\n' then
      none
    else
      findHostEnd (acc ++ [c]) rest

/-- Leftmost search of `re.search(r'@(.+?):(\d+)', link)`: scan for the first
`@` at which the lazy host match completes, returning the captured host. -/
def searchLink : List Char → Option (List Char)
  | [] => none
  | c :: rest =>
    if c = '@' then
      match findHostEnd [] rest with
      | some h => some h
      | none => searchLink rest
    else
      searchLink rest

/-- Embedding of `extract_host_and_base_link`:
strip the link, fail on empty input or a failed regex search, otherwise
return the bracket-stripped host and everything before the first `#`.
The Python `(None, None)` failure tuple becomes `none`. -/
def extract_host_and_base_link (link : List Char) : Option (List Char × List Char) :=
  let l := pyStrip link
  if l = [] then
    none
  else
    match searchLink l with
    | none => none
    | some h => some (stripBrackets h, beforeHash l)

example :
    extract_host_and_base_link (toL "vless://u@example.com:443#old") =
      some (toL "example.com", toL "vless://u@example.com:443") := by decide
example :
    extract_host_and_base_link (toL "ss://a@[1.2.3.4]:8080") =
      some (toL "1.2.3.4", toL "ss://a@[1.2.3.4]:8080") := by decide
example : extract_host_and_base_link (toL "   ") = none := by decide
example : extract_host_and_base_link (toL "no-at-sign:443") = none := by decide
example :
    extract_host_and_base_link (toL "vless://u@[::1]:443#x") =
      some (toL ":", toL "vless://u@[::1]:443") := by decide

/-! ## Country lookup services

The two fetch coroutines are embedded as pure functions of an abstract HTTP
outcome.  Every `except` clause of the source returns `None`, which the
embedding renders as `none`; totality of the functions is the model of
"never raises to the caller". -/

/-- JSON values as far as the source inspects them: strings, objects,
booleans and null.  (Numbers and arrays never appear in the fields the
source reads; an object field of such a shape would behave like `jnull`
for the truthiness tests below only if falsy, and none of the claims
depends on them.) -/
inductive JVal where
  | jstr (s : List Char)
  | jobj (fields : List (List Char × JVal))
  | jbool (b : Bool)
  | jnull

/-- Python `dict.get(key)` on the association list of an object (keys of a
parsed JSON object are unique; first match models the dictionary). -/
def jGet : List (List Char × JVal) → List Char → Option JVal
  | [], _ => none
  | (k, v) :: rest, key => if k = key then some v else jGet rest key

/-- Python truthiness of the JSON values of the model
(`""`, `{}`, `False`, `None` are falsy). -/
def jTruthy : JVal → Bool
  | .jstr s => !s.isEmpty
  | .jobj fields => !fields.isEmpty
  | .jbool b => b
  | .jnull => false

/-- Python `if not x` on an optional JSON value (`None` is falsy). -/
def pyFalsyOpt : Option JVal → Bool
  | none => true
  | some v => !jTruthy v

/-- Outcome of one HTTP GET: a body that parsed as JSON (`ok (some body)`),
a body that failed to parse (`ok none`, the `json.JSONDecodeError` path), an
HTTP error status (the `raise_for_status` / `ClientResponseError` path), a
network error, or a timeout. -/
inductive HttpOutcome where
  | ok (body : Option JVal)
  | httpError (status : Nat)
  | netError
  | timeout

/-- Python equality test of a value against a string literal
(`x == "success"`): true exactly when `x` is that string. -/
def optIsStr (v : Option JVal) (s : List Char) : Bool :=
  match v with
  | some (.jstr t) => t = s
  | _ => false

/-- Python equality test of a value against `True`. -/
def optIsTrue (v : Option JVal) : Bool :=
  match v with
  | some (.jbool b) => b
  | _ => false

/-- Embedding of the response interpretation of
`fetch_country_from_cloudflare`:
`cf = data.get("cf", {}); country_code = cf.get("country");
if not country_code: return None; return country_code`.
A non-object `data` or non-object `cf` makes `.get` raise
`AttributeError`, caught by the blanket `except Exception` → `None`. -/
def interpretCloudflare : JVal → Option JVal
  | .jobj fields =>
    match (jGet fields (toL "cf")).getD (.jobj []) with
    | .jobj cfFields =>
      match jGet cfFields (toL "country") with
      | some v => if jTruthy v then some v else none
      | none => none
    | _ => none
  | _ => none

/-- Embedding of `fetch_country_from_cloudflare`: every non-`ok` outcome and
every parse failure is caught and becomes `None`; an `ok` JSON body is
interpreted by `interpretCloudflare`. -/
def fetch_country_from_cloudflare : HttpOutcome → Option JVal
  | .ok (some body) => interpretCloudflare body
  | .ok none => none
  | .httpError _ => none
  | .netError => none
  | .timeout => none

/-- Embedding of the response interpretation of `fetch_country_from_fallback`:
`status = data.get("status"); if status != "success": return None;
return data.get("countryCode")`.  Note the raw `countryCode` value is
returned unchecked (it may be `None`, modelled by `none`). -/
def interpretFallback : JVal → Option JVal
  | .jobj fields =>
    if optIsStr (jGet fields (toL "status")) (toL "success") then
      jGet fields (toL "countryCode")
    else
      none
  | _ => none

/-- Embedding of `fetch_country_from_fallback`, analogous to
`fetch_country_from_cloudflare`. -/
def fetch_country_from_fallback : HttpOutcome → Option JVal
  | .ok (some body) => interpretFallback body
  | .ok none => none
  | .httpError _ => none
  | .netError => none
  | .timeout => none

/-- Modelled after the spec's words (for comparison with the source, which
the source does NOT implement for the primary service): "success requires an
explicit success indicator in the payload", i.e. a top-level
`"status": "success"` or `"success": true` field. -/
def specSuccessIndicator : JVal → Bool
  | .jobj fields =>
    optIsStr (jGet fields (toL "status")) (toL "success") ||
      optIsTrue (jGet fields (toL "success"))
  | _ => false

/-- The fallback-dispatch condition of `get_country_code`:
`if not country_code and USE_FALLBACK_API`. -/
def fallbackUsed (useFallbackApi : Bool) (primaryResult : Option JVal) : Bool :=
  pyFalsyOpt primaryResult && useFallbackApi

/-- The pure per-miss data flow of `get_country_code` (lines inside the
semaphore), as a function of the two fetch results:
fall back when the primary result is falsy and the fallback API is enabled,
then replace a still-falsy result by the sentinel `"xXx"`. -/
def countryChain (useFallbackApi : Bool) (primaryResult fallbackResult : Option JVal) :
    JVal :=
  let cc := if fallbackUsed useFallbackApi primaryResult then fallbackResult
            else primaryResult
  if pyFalsyOpt cc then .jstr sentinel else cc.getD .jnull

example :
    countryChain true (some (.jstr (toL "US"))) none = .jstr (toL "US") := rfl
example : countryChain true none (some (.jstr (toL "DE"))) = .jstr (toL "DE") := rfl
example : countryChain true none none = .jstr sentinel := rfl
example : countryChain true (some (.jstr [])) none = .jstr sentinel := rfl

/-! ## Per-link pipeline (`process_link`, `rename_ss_configs_async`)

DNS resolution and the cache-checked country lookup are abstracted as
oracles `resolve : host → Option ip` and `lookup : ip → country code`;
`rename_ss_configs_async`'s `asyncio.gather` returns results in task
(= input) order, which the sequential map below is the semantics of. -/

/-- Embedding of `process_link` with the two awaited effects as oracles:
strip, parse, skip the entry on a falsy host or base link, resolve
(`"xXx"` on failure, lookup otherwise), and assemble
`f"{base_link}#{flag}{country_code}  ROSE—{index:02d}"`. -/
def process_link (resolve : List Char → Option (List Char))
    (lookup : List Char → List Char) (index : Nat) (link : List Char) :
    Option (List Char) :=
  let l := pyStrip link
  if l = [] then
    none
  else
    match extract_host_and_base_link l with
    | none => none
    | some (host, base_link) =>
      if host.isEmpty || base_link.isEmpty then
        none
      else
        let country_code :=
          match resolve host with
          | none => sentinel
          | some ip => lookup ip
        let flag := get_flag_emoji country_code
        some (base_link ++ '#' :: (flag ++ country_code ++ sepTag ++ format02 index))

/-- The result-collection loop of `rename_ss_configs_async`
(`for res in results: if res: renamed_list.append(res)`): keep the truthy
results, in order. -/
def keepTruthy : List (Option (List Char)) → List (List Char)
  | [] => []
  | none :: rest => keepTruthy rest
  | some s :: rest => if s.isEmpty then keepTruthy rest else s :: keepTruthy rest

/-- Embedding of `rename_ss_configs_async`: enumerate from 1, process every
link (gather preserves task order), then keep the truthy results in order. -/
def rename_ss_configs (resolve : List Char → Option (List Char))
    (lookup : List Char → List Char) (config_list : List (List Char)) :
    List (List Char) :=
  keepTruthy (config_list.enum.map fun p => process_link resolve lookup (p.1 + 1) p.2)

example :
    rename_ss_configs (fun _ => some (toL "1.2.3.4")) (fun _ => toL "US")
        [toL "vless://u@example.com:443#old"] =
      [toL "vless://u@example.com:443#🇺🇸US  ROSE—01"] := by decide

example :
    rename_ss_configs (fun _ => none) (fun _ => toL "US")
        [toL "bad link", toL "vless://u@h.com:443#n"] =
      [toL "vless://u@h.com:443#❓xXx  ROSE—02"] := by decide

/-! ## Concurrency machine (`get_country_code` under asyncio)

The per-miss body of `get_country_code` suspends at the semaphore, at the
primary HTTP call and at the fallback HTTP call; everything between two
suspension points is atomic under asyncio's single-threaded cooperative
scheduling.  One work unit per task, an arbitrary schedule chooses which
task runs its next atomic segment.  The fetch results are supplied by an
environment indexed by the global invocation counter (so services may
answer differently on different invocations) and the queried IP. -/

/-- Python `if not x` on an optional string. -/
def pyFalsyS : Option (List Char) → Bool
  | none => true
  | some s => s.isEmpty

/-- Program counter of one `get_country_code` work unit:
about to run the cache check, parked on the semaphore, awaiting the primary
HTTP call, awaiting the fallback HTTP call, or finished. -/
inductive TaskPC where
  | start
  | waiting
  | fetchPrimary
  | fetchFallback
  | done
deriving DecidableEq

/-- One work unit: its IP argument, program counter, the invocation index it
drew when it acquired the semaphore, and its return value once finished. -/
structure WTask where
  ip : Nat
  pc : TaskPC
  callIdx : Nat
  result : Option (List Char)
deriving DecidableEq

/-- Shared state of one run: the task list, the shared cache dictionary
(insertion at the front; first match wins, modelling overwriting), the
semaphore counter, the count of chain invocations so far, and the log of
invoked IPs in invocation order. -/
structure SysState where
  tasks : List WTask
  cache : List (Nat × List Char)
  sem : Nat
  calls : Nat
  callLog : List Nat
deriving DecidableEq

/-- Python `cache[ip]` / `ip in cache` on the association-list dictionary. -/
def lookupCache : List (Nat × List Char) → Nat → Option (List Char)
  | [], _ => none
  | (k, v) :: rest, key => if k = key then some v else lookupCache rest key

/-- Results of the two lookup services, per invocation index and IP.
`none` is a soft failure (any caught exception); `some s` is the string the
fetch coroutine returned (which Python also treats as a failure when empty). -/
structure Env where
  primary : Nat → Nat → Option (List Char)
  fallback : Nat → Nat → Option (List Char)

/-- Acquire the semaphore for the task at position `t`: record the chain
invocation and move to the primary fetch. -/
def acquireSem (s : SysState) (t : Nat) (tk : WTask) : SysState :=
  { s with
    tasks := s.tasks.set t { tk with pc := .fetchPrimary, callIdx := s.calls }
    sem := s.sem - 1
    calls := s.calls + 1
    callLog := s.callLog ++ [tk.ip] }

/-- One atomic segment of the task at position `t` (no-op when the task is
finished, blocked on an empty semaphore, or the index is out of range):

* `start`: `if ip_address in cache: return cache[ip_address]`, else enter
  `async with semaphore` (immediate when the counter is positive);
* `waiting`: wake up when the counter is positive;
* `fetchPrimary`: the primary call returns; a truthy value is written to the
  cache and returned (releasing the semaphore), a falsy one falls through to
  the fallback call (`USE_FALLBACK_API` is `True`);
* `fetchFallback`: the fallback call returns; a falsy value becomes the
  sentinel `"xXx"`; the result is written to the cache and returned. -/
def stepTask (env : Env) (s : SysState) (t : Nat) : SysState :=
  match s.tasks[t]? with
  | none => s
  | some tk =>
    match tk.pc with
    | .done => s
    | .start =>
      match lookupCache s.cache tk.ip with
      | some v =>
        { s with tasks := s.tasks.set t { tk with pc := .done, result := some v } }
      | none =>
        if s.sem > 0 then
          acquireSem s t tk
        else
          { s with tasks := s.tasks.set t { tk with pc := .waiting } }
    | .waiting =>
      if s.sem > 0 then
        acquireSem s t tk
      else
        s
    | .fetchPrimary =>
      let r := env.primary tk.callIdx tk.ip
      if pyFalsyS r then
        { s with tasks := s.tasks.set t { tk with pc := .fetchFallback } }
      else
        let v := r.getD []
        { s with
          tasks := s.tasks.set t { tk with pc := .done, result := some v }
          cache := (tk.ip, v) :: s.cache
          sem := s.sem + 1 }
    | .fetchFallback =>
      let r := env.fallback tk.callIdx tk.ip
      let v := if pyFalsyS r then sentinel else r.getD []
      { s with
        tasks := s.tasks.set t { tk with pc := .done, result := some v }
        cache := (tk.ip, v) :: s.cache
        sem := s.sem + 1 }

/-- Initial state for one run: one `start` task per IP, empty cache, the
semaphore at `MAX_CONCURRENT_REQUESTS = 20`. -/
def initState (ips : List Nat) : SysState :=
  { tasks := ips.map fun i => { ip := i, pc := .start, callIdx := 0, result := none }
    cache := []
    sem := 20
    calls := 0
    callLog := [] }

/-- Run the machine under a schedule: each schedule entry names the task
that executes its next atomic segment. -/
def run (env : Env) (s : SysState) (sched : List Nat) : SysState :=
  sched.foldl (stepTask env) s

/-- Is this task holding the semaphore, i.e. between dispatch and
completion of a lookup-service HTTP call (primary or fallback)? -/
def isInFlight (tk : WTask) : Bool :=
  match tk.pc with
  | .fetchPrimary => true
  | .fetchFallback => true
  | _ => false

/-- Number of tasks with an outstanding lookup-service HTTP call. -/
def inFlight (s : SysState) : Nat :=
  s.tasks.countP isInFlight

/-- The value one whole chain invocation (primary, then fallback, then
sentinel) produces under `env` at invocation index `k` for IP `i`.  This is
the same data flow as `countryChain`, at the string level of the machine. -/
def chainOutcome (env : Env) (k i : Nat) : List Char :=
  let r := env.primary k i
  if pyFalsyS r then
    let f := env.fallback k i
    if pyFalsyS f then sentinel else f.getD []
  else
    r.getD []

/-! ## Helper lemmas -/

theorem toNat_ofNat_valid {n : Nat} (h : n.isValidChar) :
    (Char.ofNat n).toNat = n := by
  simp [Char.ofNat, h, Char.ofNatAux, Char.toNat, UInt32.toNat, BitVec.toNat_ofNatLt]

theorem toUpper_toUpper (c : Char) : c.toUpper.toUpper = c.toUpper := by
  unfold Char.toUpper
  by_cases h : c.toNat ≥ 97 ∧ c.toNat ≤ 122
  · rw [if_pos h]
    have hv : (c.toNat - 32).isValidChar := by
      left
      omega
    rw [toNat_ofNat_valid hv, if_neg]
    omega
  · rw [if_neg h, if_neg h]

/-! ## Claim theorems -/

/-- C6 counterexample: the length-2 code `"1A"` is not alphabetic, yet
`get_flag_emoji` does not render the unknown glyph for it — the source
checks only the length, so the non-letter `'1'` is pushed through the
code-point offset as well.  This falsifies the claim that any code
containing non-letters renders as the single fixed unknown glyph. -/
theorem flag_nonalpha_not_unknown :
    (toL "1A").length = 2 ∧ get_flag_emoji (toL "1A") ≠ ['❓'] := by
  constructor
  · decide
  · decide

/-- C6 (amended): flag rendering is a pure function of the code; a code
whose length is not 2 renders the fixed unknown glyph; every length-2 code
is uppercased and mapped character-wise through the regional-indicator
offset `0x1F1E6 + (c - 'A')` — in particular a two-letter alphabetic code
lands exactly in the regional-indicator block `0x1F1E6 ..= 0x1F1FF`, but a
length-2 code containing non-letters is mapped through the same offset
rather than rendering the unknown glyph. -/
theorem flag_rendering (cc : List Char) :
    (cc.length ≠ 2 → get_flag_emoji cc = ['❓']) ∧
    (∀ a b, cc = [a, b] →
      get_flag_emoji cc = [regionalChar a.toUpper, regionalChar b.toUpper]) ∧
    (∀ a b, cc = [a, b] → a.toUpper.isUpper → b.toUpper.isUpper →
      (regionalChar a.toUpper).toNat = 0x1F1E6 + a.toUpper.toNat - 65 ∧
      (regionalChar b.toUpper).toNat = 0x1F1E6 + b.toUpper.toNat - 65 ∧
      0x1F1E6 ≤ (regionalChar a.toUpper).toNat ∧ (regionalChar a.toUpper).toNat ≤ 0x1F1FF ∧
      0x1F1E6 ≤ (regionalChar b.toUpper).toNat ∧ (regionalChar b.toUpper).toNat ≤ 0x1F1FF) := by
  refine ⟨?_, ?_, ?_⟩
  · intro hlen
    unfold get_flag_emoji
    rw [if_pos]
    cases cc with
    | nil => simp
    | cons a t =>
      simp at hlen ⊢
      omega
  · rintro a b rfl
    rfl
  · rintro a b rfl ha hb
    have hva : a.toUpper.toNat ≤ 90 ∧ 65 ≤ a.toUpper.toNat := by
      unfold Char.isUpper at ha
      constructor <;> [exact (of_decide_eq_true (Bool.and_elim_right ha) : _);
        exact (of_decide_eq_true (Bool.and_elim_left ha) : _)]
    have hvb : b.toUpper.toNat ≤ 90 ∧ 65 ≤ b.toUpper.toNat := by
      unfold Char.isUpper at hb
      constructor <;> [exact (of_decide_eq_true (Bool.and_elim_right hb) : _);
        exact (of_decide_eq_true (Bool.and_elim_left hb) : _)]
    have hca : (0x1F1E6 + a.toUpper.toNat - 65).isValidChar := by
      right
      omega
    have hcb : (0x1F1E6 + b.toUpper.toNat - 65).isValidChar := by
      right
      omega
    unfold regionalChar
    rw [toNat_ofNat_valid hca, toNat_ofNat_valid hcb]
    omega

/-- C6 witness: the lowercase alphabetic code `"us"` instantiates the
amended claim at a concrete input. -/
theorem flag_rendering_witness :
    get_flag_emoji (toL "us") = [regionalChar 'u'.toUpper, regionalChar 's'.toUpper] ∧
    0x1F1E6 ≤ (regionalChar 'u'.toUpper).toNat ∧
    (regionalChar 'u'.toUpper).toNat ≤ 0x1F1FF := by
  have h := flag_rendering (toL "us")
  have h3 := h.2.2 'u' 's' (by decide) (by decide) (by decide)
  exact ⟨h.2.1 'u' 's' (by decide), h3.2.2.1, h3.2.2.2.1⟩

/-- Auxiliary for C10: `get_flag_emoji` is invariant under code-point-wise
ASCII uppercasing of its input, because the function uppercases length-2
codes itself (idempotently) and the length test ignores case. -/
theorem get_flag_emoji_map_toUpper (cc : List Char) :
    get_flag_emoji (cc.map Char.toUpper) = get_flag_emoji cc := by
  have hmm : (cc.map Char.toUpper).map Char.toUpper = cc.map Char.toUpper := by
    rw [List.map_map]
    exact List.map_congr_left fun c _ => toUpper_toUpper c
  have hie : (cc.map Char.toUpper).isEmpty = cc.isEmpty := by
    cases cc <;> rfl
  unfold get_flag_emoji
  rw [List.length_map, hie, hmm]

theorem pyUpper_eq_map_toUpper :
    ∀ cc : List Char, (∀ c ∈ cc, c.toNat < 128) →
      pyUpper cc = cc.map Char.toUpper := by
  intro cc
  induction cc with
  | nil => intro _; rfl
  | cons c rest ih =>
    intro hascii
    have hc : c ≠ 'ß' := by
      intro hcc
      have h := hascii c (List.mem_cons_self _ _)
      rw [hcc] at h
      exact absurd h (by decide)
    have ih' := ih fun x hx => hascii x (List.mem_cons_of_mem _ hx)
    unfold pyUpper at ih' ⊢
    simp only [List.map_cons, List.flatten_cons, ih', pyUpperChar, if_neg hc]
    rfl

/-- C10 counterexample: flag rendering is NOT invariant under the program's
uppercasing operation `str.upper` for every input string, because that
operation can change the length: `"ß".upper()` is `"SS"`, so the length-1
input `"ß"` renders the unknown glyph while its uppercase form `"SS"`
renders the regional-indicator pair.  (Both renderings are reached before
any interior uppercasing, so they are exact CPython behaviour.) -/
theorem flag_sharp_s_not_case_invariant :
    pyUpper (toL "ß") = toL "SS" ∧
    get_flag_emoji (toL "ß") = ['❓'] ∧
    get_flag_emoji (pyUpper (toL "ß")) = ['🇸', '🇸'] ∧
    get_flag_emoji (pyUpper (toL "ß")) ≠ get_flag_emoji (toL "ß") := by
  refine ⟨by decide, by decide, by decide, by decide⟩

/-- C10 (amended): flag rendering is case-insensitive on ASCII inputs — for
every string of ASCII characters, rendering the uppercased string equals
rendering the string itself, because on ASCII `str.upper` is the pointwise,
length-preserving case mapping, any length-2 code is uppercased before the
codepoint-offset mapping, and every other length maps to the unknown glyph
regardless of case.  For inputs containing a character whose uppercase
mapping expands, such as `'ß'`, the equality fails (see the
counterexample). -/
theorem flag_case_insensitive_ascii (cc : List Char)
    (hascii : ∀ c ∈ cc, c.toNat < 128) :
    get_flag_emoji (pyUpper cc) = get_flag_emoji cc := by
  rw [pyUpper_eq_map_toUpper cc hascii]
  exact get_flag_emoji_map_toUpper cc

/-- C10 witness: the amended claim at the concrete ASCII code `"us"`. -/
theorem flag_case_insensitive_ascii_witness :
    get_flag_emoji (pyUpper (toL "us")) = get_flag_emoji (toL "us") :=
  flag_case_insensitive_ascii (toL "us") (by decide)

/-- C3 (confirmed): the country lookup chain of `get_country_code` is total
(the embedding of "never raises": every fetch failure is already a `none`
value, and the chain itself always produces a `JVal`), uses the primary
result whenever the primary succeeded, dispatches the fallback exactly when
the primary failed (`USE_FALLBACK_API = True`), and returns the unknown
sentinel `"xXx"` if and only if both the primary and the fallback results
are failures — provided neither service reports the literal sentinel string
as a country, which no real ISO code equals. -/
theorem countryChain_of_falsy (p f : Option JVal) (h : pyFalsyOpt p = true) :
    countryChain true p f =
      if pyFalsyOpt f = true then .jstr sentinel else f.getD .jnull := by
  unfold countryChain fallbackUsed
  rw [h]
  rfl

theorem countryChain_of_truthy (p f : Option JVal) (h : pyFalsyOpt p = false) :
    countryChain true p f = p.getD .jnull := by
  unfold countryChain fallbackUsed
  simp [h]

theorem getD_ne_sentinel {p : Option JVal} (hne : p ≠ some (.jstr sentinel))
    (h : pyFalsyOpt p = false) : p.getD .jnull ≠ .jstr sentinel := by
  cases p with
  | none => simp [pyFalsyOpt] at h
  | some v =>
    simp only [Option.getD_some]
    intro hv
    exact hne (by rw [hv])

theorem chain_never_fails (p f : Option JVal)
    (hp : p ≠ some (.jstr sentinel)) (hf : f ≠ some (.jstr sentinel)) :
    (pyFalsyOpt p = false →
      countryChain true p f = p.getD .jnull ∧ fallbackUsed true p = false) ∧
    (pyFalsyOpt p = true → fallbackUsed true p = true) ∧
    (countryChain true p f = .jstr sentinel ↔
      pyFalsyOpt p = true ∧ pyFalsyOpt f = true) := by
  refine ⟨fun hc => ⟨countryChain_of_truthy p f hc, ?_⟩, fun hc => ?_, ?_, ?_⟩
  · unfold fallbackUsed
    rw [hc]
    rfl
  · unfold fallbackUsed
    rw [hc]
    rfl
  · intro hc
    by_cases hp' : pyFalsyOpt p = true
    · refine ⟨hp', ?_⟩
      by_cases hf' : pyFalsyOpt f = true
      · exact hf'
      · have hf'' : pyFalsyOpt f = false := by simpa using hf'
        rw [countryChain_of_falsy p f hp', if_neg (by simp [hf''])] at hc
        exact absurd hc (getD_ne_sentinel hf hf'')
    · have hp'' : pyFalsyOpt p = false := by simpa using hp'
      rw [countryChain_of_truthy p f hp''] at hc
      exact absurd hc (getD_ne_sentinel hp hp'')
  · rintro ⟨h1, h2⟩
    rw [countryChain_of_falsy p f h1, if_pos h2]

/-- C3 witness: Scenario C of the spec — the primary call fails (`none`),
the fallback returns `"DE"`; the fallback is dispatched and the final code
is `"DE"`, not the sentinel. -/
theorem chain_never_fails_witness :
    fallbackUsed true (none : Option JVal) = true ∧
    ¬(countryChain true none (some (.jstr (toL "DE"))) = .jstr sentinel) := by
  have h := chain_never_fails none (some (.jstr (toL "DE")))
      (by simp)
      (by
        intro heq
        injection heq with h1
        injection h1 with h2
        exact absurd h2 (by decide))
  refine ⟨h.2.1 rfl, fun hc => ?_⟩
  have := (h.2.2.mp hc).2
  simp [pyFalsyOpt, jTruthy, toL] at this

/-- C4 counterexample: a primary-service payload containing no success
indicator of any form (no `"status"` and no `"success"` field) but a
non-empty `cf.country` field is treated as a success by
`fetch_country_from_cloudflare`, contradicting the claim that success
requires an explicit success indicator in the payload. -/
theorem cloudflare_no_indicator_needed :
    fetch_country_from_cloudflare
        (.ok (some (.jobj [(toL "cf", .jobj [(toL "country", .jstr (toL "US"))])]))) =
      some (.jstr (toL "US")) ∧
    specSuccessIndicator
        (.jobj [(toL "cf", .jobj [(toL "country", .jstr (toL "US"))])]) = false :=
  ⟨rfl, rfl⟩

/-- C4 (amended): a primary-service response is treated as a success exactly
when the HTTP layer succeeded with a JSON object whose `"cf"` field is an
object containing a present, truthy (in particular non-empty) `"country"`
value — no explicit success indicator in the payload is consulted; and any
HTTP error status, network error, timeout or malformed (non-JSON) payload is
a soft failure yielding `none` instead of raising, which makes
`get_country_code` dispatch the fallback. -/
theorem cloudflare_success_characterization (o : HttpOutcome) (v : JVal) :
    (fetch_country_from_cloudflare o = some v ↔
      ∃ fields cfFields, o = .ok (some (.jobj fields)) ∧
        jGet fields (toL "cf") = some (.jobj cfFields) ∧
        jGet cfFields (toL "country") = some v ∧ jTruthy v = true) ∧
    (∀ st, fetch_country_from_cloudflare (.httpError st) = none) ∧
    fetch_country_from_cloudflare .netError = none ∧
    fetch_country_from_cloudflare .timeout = none ∧
    fetch_country_from_cloudflare (.ok none) = none ∧
    (fallbackUsed true (fetch_country_from_cloudflare o) = true ↔
      pyFalsyOpt (fetch_country_from_cloudflare o) = true) := by
  refine ⟨?_, fun _ => rfl, rfl, rfl, rfl, by simp [fallbackUsed]⟩
  constructor
  · intro hs
    cases o with
    | ok body =>
      cases body with
      | none => exact absurd hs (by simp [fetch_country_from_cloudflare])
      | some data =>
        cases data with
        | jobj fields =>
          simp only [fetch_country_from_cloudflare, interpretCloudflare] at hs
          cases hcf : jGet fields (toL "cf") with
          | none => rw [hcf] at hs; simp [jGet] at hs
          | some w =>
            rw [hcf] at hs
            cases w with
            | jobj cfFields =>
              simp only [Option.getD_some] at hs
              cases hco : jGet cfFields (toL "country") with
              | none => rw [hco] at hs; simp at hs
              | some u =>
                rw [hco] at hs
                have hs' : (if jTruthy u = true then some u else none) = some v := hs
                by_cases ht : jTruthy u = true
                · rw [if_pos ht] at hs'
                  injection hs' with hs'
                  exact ⟨fields, cfFields, rfl, hcf, hs' ▸ hco, hs' ▸ ht⟩
                · rw [if_neg ht] at hs'
                  exact absurd hs' (by simp)
            | jstr s => simp [Option.getD_some] at hs
            | jbool b => simp [Option.getD_some] at hs
            | jnull => simp [Option.getD_some] at hs
        | jstr s => exact absurd hs (by simp [fetch_country_from_cloudflare, interpretCloudflare])
        | jbool b => exact absurd hs (by simp [fetch_country_from_cloudflare, interpretCloudflare])
        | jnull => exact absurd hs (by simp [fetch_country_from_cloudflare, interpretCloudflare])
    | httpError st => exact absurd hs (by simp [fetch_country_from_cloudflare])
    | netError => exact absurd hs (by simp [fetch_country_from_cloudflare])
    | timeout => exact absurd hs (by simp [fetch_country_from_cloudflare])
  · rintro ⟨fields, cfFields, rfl, h1, h2, h3⟩
    simp [fetch_country_from_cloudflare, interpretCloudflare, h1, h2, h3]

/-- C4 witness: the amended characterization applied at the concrete
successful payload `{"cf": {"country": "US"}}`. -/
theorem cloudflare_success_witness :
    fetch_country_from_cloudflare
        (.ok (some (.jobj [(toL "cf", .jobj [(toL "country", .jstr (toL "US"))])]))) =
      some (.jstr (toL "US")) :=
  (cloudflare_success_characterization _ _).1.mpr
    ⟨[(toL "cf", .jobj [(toL "country", .jstr (toL "US"))])],
      [(toL "country", .jstr (toL "US"))], rfl, rfl, rfl, rfl⟩

theorem findHostEnd_complete (h : List Char) (d : Char) (rest : List Char) :
    ∀ acc : List Char, (∀ c ∈ h, c ≠ ':' ∧ c ≠ '\n') → acc ++ h ≠ [] →
      d.isDigit = true →
      findHostEnd acc (h ++ ':' :: d :: rest) = some (acc ++ h) := by
  induction h with
  | nil =>
    intro acc _ hne hd
    simp only [List.nil_append, List.append_nil] at hne ⊢
    unfold findHostEnd
    rw [if_pos ⟨hne, rfl, by simpa [digitNext] using hd⟩]
  | cons c h ih =>
    intro acc hh hne hd
    have hc := hh c (List.mem_cons_self c h)
    show findHostEnd acc (c :: (h ++ ':' :: d :: rest)) = some (acc ++ c :: h)
    unfold findHostEnd
    rw [if_neg (fun hcond => hc.1 hcond.2.1), if_neg hc.2]
    have := ih (acc ++ [c]) (fun x hx => hh x (List.mem_cons_of_mem c hx))
        (by simp) hd
    simpa using this

theorem searchLink_complete (p : List Char) (t : List Char) (h : List Char)
    (hp : ∀ c ∈ p, c ≠ '@') (hh : findHostEnd [] t = some h) :
    searchLink (p ++ '@' :: t) = some h := by
  induction p with
  | nil =>
    show searchLink ('@' :: t) = some h
    unfold searchLink
    rw [if_pos rfl, hh]
  | cons c p ih =>
    have hc := hp c (List.mem_cons_self c p)
    show searchLink (c :: (p ++ '@' :: t)) = some h
    unfold searchLink
    rw [if_neg hc]
    exact ih fun x hx => hp x (List.mem_cons_of_mem c hx)

/-- C1 counterexample: for the raw link `vless://u@[::1]:443#x`, whose
`@host:port` substring carries the bracketed IPv6 literal `[::1]`, the
lazy group of the regex `@(.+?):(\d+)` stops at the first colon that is
followed by a digit, capturing `[:`, which bracket-stripping turns into
`":"` — not the claimed `"::1"`.  The base link is still the prefix before
the first `#`. -/
theorem extract_ipv6_truncated :
    extract_host_and_base_link (toL "vless://u@[::1]:443#x") =
      some (toL ":", toL "vless://u@[::1]:443") ∧
    toL ":" ≠ toL "::1" := by
  constructor
  · decide
  · decide

/-- C1 (amended): for every raw link whose stripped form decomposes as
`p ++ "@" ++ h ++ ":" ++ port ++ s` where `p` contains no `@`, the host `h`
is nonempty and contains neither `:` nor a newline, and `port` starts with a
decimal digit, the parser extracts exactly `h` with surrounding `[`/`]`
characters stripped, and a base link equal to the part of the stripped link
before the first `#` (the whole stripped link when it has no `#`).  Hosts
containing `:` — bracketed IPv6 literals in particular — are excluded: there
the lazy regex group truncates the host (see the counterexample). -/
theorem extract_host_valid (link p h port s : List Char)
    (hp : ∀ c ∈ p, c ≠ '@')
    (hne : h ≠ []) (hh : ∀ c ∈ h, c ≠ ':' ∧ c ≠ '\n')
    (hport : digitNext port = true)
    (hlink : pyStrip link = p ++ '@' :: (h ++ ':' :: port ++ s)) :
    extract_host_and_base_link link =
      some (stripBrackets h, beforeHash (pyStrip link)) := by
  unfold extract_host_and_base_link
  rw [hlink]
  rw [if_neg (by simp)]
  cases port with
  | nil => simp [digitNext] at hport
  | cons d rest =>
    have hfind : findHostEnd [] (h ++ ':' :: d :: (rest ++ s)) = some h := by
      simpa using findHostEnd_complete h d (rest ++ s) [] hh (by simpa using hne)
        (by simpa [digitNext] using hport)
    have hsearch := searchLink_complete p (h ++ ':' :: d :: (rest ++ s)) h hp hfind
    have heq : h ++ ':' :: (d :: rest) ++ s = h ++ ':' :: d :: (rest ++ s) := by
      simp
    rw [heq, hsearch]

/-- C1 witness: the amended claim applied to the concrete link
`vless://u@h1.com:80#name`. -/
theorem extract_host_valid_witness :
    extract_host_and_base_link (toL "vless://u@h1.com:80#name") =
      some (stripBrackets (toL "h1.com"), beforeHash (pyStrip (toL "vless://u@h1.com:80#name"))) :=
  extract_host_valid (toL "vless://u@h1.com:80#name") (toL "vless://u")
    (toL "h1.com") (toL "80") (toL "#name")
    (by decide) (by decide) (by decide) (by decide) (by decide)

theorem process_link_ne_empty (resolve : List Char → Option (List Char))
    (lookup : List Char → List Char) (i : Nat) (link s : List Char)
    (hs : process_link resolve lookup i link = some s) : s ≠ [] := by
  unfold process_link at hs
  by_cases hl : pyStrip link = []
  · rw [if_pos hl] at hs
    exact absurd hs (by simp)
  · rw [if_neg hl] at hs
    cases hx : extract_host_and_base_link (pyStrip link) with
    | none => rw [hx] at hs; exact absurd hs (by simp)
    | some pr =>
      rw [hx] at hs
      by_cases he : pr.1.isEmpty || pr.2.isEmpty
      · simp only [he, if_true] at hs
        exact absurd hs (by simp)
      · simp only [he, if_false] at hs
        injection hs with hs
        rw [← hs]
        simp

theorem keepTruthy_eq_filterMap (l : List (Option (List Char)))
    (hl : ∀ s, some s ∈ l → s ≠ []) :
    keepTruthy l = l.filterMap id := by
  induction l with
  | nil => rfl
  | cons r rest ih =>
    have ih' := ih fun s hs => hl s (List.mem_cons_of_mem r hs)
    cases r with
    | none => simpa [keepTruthy] using ih'
    | some s =>
      have hse : s.isEmpty = false := by
        have hsne : s ≠ [] := hl s (List.mem_cons_self _ _)
        cases s with
        | nil => exact absurd rfl hsne
        | cons a t => rfl
      unfold keepTruthy
      rw [hse, if_neg (by simp), ih']
      simp

/-- C5 (confirmed): `rename_ss_configs_async` returns, in input order, the
annotated links of exactly those inputs whose processing produced a result
(failed parses are omitted, leaving gaps); the ordinal of a surviving entry
is determined by its 1-based input position (`enumerate(config_list, 1)`,
with `asyncio.gather` preserving task order), every produced entry ends in
`f"{index:02d}"` of that position, and for positions up to 99 that label is
exactly 2 digits (zero-padded). -/
theorem rename_order_and_ordinals (resolve : List Char → Option (List Char))
    (lookup : List Char → List Char) (links : List (List Char)) :
    rename_ss_configs resolve lookup links =
      links.enum.filterMap (fun p => process_link resolve lookup (p.1 + 1) p.2) ∧
    (∀ i link s, process_link resolve lookup i link = some s →
      ∃ t, s = t ++ format02 i) ∧
    (∀ i, i < 100 → 1 ≤ i → (format02 i).length = 2) := by
  refine ⟨?_, ?_, by decide⟩
  · unfold rename_ss_configs
    rw [keepTruthy_eq_filterMap]
    · rw [List.filterMap_map]
      rfl
    · intro s hs
      rcases List.mem_map.mp hs with ⟨p, _, hp⟩
      exact process_link_ne_empty resolve lookup (p.1 + 1) p.2 s hp
  · intro i link s hs
    unfold process_link at hs
    by_cases hl : pyStrip link = []
    · rw [if_pos hl] at hs
      exact absurd hs (by simp)
    · rw [if_neg hl] at hs
      cases hx : extract_host_and_base_link (pyStrip link) with
      | none => rw [hx] at hs; exact absurd hs (by simp)
      | some pr =>
        rw [hx] at hs
        by_cases he : pr.1.isEmpty || pr.2.isEmpty
        · simp only [he, if_true] at hs
          exact absurd hs (by simp)
        · simp only [he, if_false] at hs
          injection hs with hs
          refine ⟨pr.2 ++ '#' ::
            (get_flag_emoji (match resolve pr.1 with
              | none => sentinel
              | some ip => lookup ip) ++ (match resolve pr.1 with
              | none => sentinel
              | some ip => lookup ip) ++ sepTag), ?_⟩
          rw [← hs]
          simp

/-- C5 witness: a run over one malformed and one well-formed link — the
survivor keeps the ordinal `02` of its input position, and the labels of
positions 1–99 are 2 digits. -/
theorem rename_order_witness :
    (∃ t, toL "a@b:1#❓xXx  ROSE—07" = t ++ format02 7) ∧ (format02 2).length = 2 := by
  have h := rename_order_and_ordinals (fun _ => none) (fun _ => sentinel) []
  exact ⟨h.2.1 7 (toL "a@b:1") (toL "a@b:1#❓xXx  ROSE—07") (by decide),
    h.2.2 2 (by decide) (by decide)⟩

/-- C7 (confirmed): when DNS resolution fails for a parsed link, the entry
is still produced, with the sentinel country code and the unknown-glyph
flag, and the country lookup is never consulted — the output is identical
under arbitrary different lookup oracles. -/
theorem resolution_failure_entry (resolve : List Char → Option (List Char))
    (lookup lookup' : List Char → List Char) (i : Nat)
    (link host base_link : List Char)
    (hex : extract_host_and_base_link (pyStrip link) = some (host, base_link))
    (hhost : host ≠ []) (hbase : base_link ≠ [])
    (hres : resolve host = none) :
    process_link resolve lookup i link =
      some (base_link ++ '#' :: (['❓'] ++ sentinel ++ sepTag ++ format02 i)) ∧
    process_link resolve lookup i link = process_link resolve lookup' i link ∧
    get_flag_emoji sentinel = ['❓'] := by
  have hl : pyStrip link ≠ [] := by
    intro hnil
    rw [hnil] at hex
    exact absurd hex (by simp [extract_host_and_base_link, pyStrip])
  have hhe : host.isEmpty = false := by
    cases host with
    | nil => exact absurd rfl hhost
    | cons a t => rfl
  have hbe : base_link.isEmpty = false := by
    cases base_link with
    | nil => exact absurd rfl hbase
    | cons a t => rfl
  refine ⟨?_, ?_, rfl⟩
  · unfold process_link
    rw [if_neg hl, hex]
    simp only [hhe, hbe, Bool.or_self, if_false, hres]
    rfl
  · unfold process_link
    rw [if_neg hl, if_neg hl, hex]
    simp only [hhe, hbe, Bool.or_self, if_false, hres]

/-- C7 witness: the concrete link `a@b:1` with a failing resolver — the
entry survives with the sentinel code and unknown flag, unchanged when the
(unconsulted) lookup oracle changes. -/
theorem resolution_failure_witness :
    process_link (fun _ => none) (fun _ => toL "US") 3 (toL "a@b:1") =
      some (toL "a@b:1" ++ '#' :: (['❓'] ++ sentinel ++ sepTag ++ format02 3)) ∧
    process_link (fun _ => none) (fun _ => toL "US") 3 (toL "a@b:1") =
      process_link (fun _ => none) (fun _ => toL "DE") 3 (toL "a@b:1") := by
  have h := resolution_failure_entry (fun _ => none) (fun _ => toL "US")
      (fun _ => toL "DE") 3 (toL "a@b:1") (toL "b") (toL "a@b:1")
      (by decide) (by decide) (by decide) rfl
  exact ⟨h.1, h.2.1⟩

/-- Services answering `"US"` to the first chain invocation and `"DE"` to
every later one: two racing invocations for one IP observe different
values. -/
def envRace : Env where
  primary := fun k _ => if k = 0 then some (toL "US") else some (toL "DE")
  fallback := fun _ _ => none

/-- C2 counterexample: two work units for the same IP `7`, interleaved as
asyncio may interleave them (both run their cache check and acquire the
semaphore before either HTTP call returns), each dispatch a chain
invocation — the invocation log records IP `7` twice — and, the services
having answered the two invocations differently, the two units observe
different CountryCode values.  `get_country_code` does not coalesce
concurrent misses. -/
theorem cache_race_double_lookup :
    (run envRace (initState [7, 7]) [0, 1, 0, 1]).callLog = [7, 7] ∧
    (run envRace (initState [7, 7]) [0, 1, 0, 1]).tasks.map WTask.result =
      [some (toL "US"), some (toL "DE")] ∧
    toL "US" ≠ toL "DE" := by
  refine ⟨by decide, by decide, by decide⟩

theorem countP_set (p : WTask → Bool) (l : List WTask) :
    ∀ (t : Nat) (a b : WTask), l[t]? = some a →
      (l.set t b).countP p + (if p a then 1 else 0) =
        l.countP p + (if p b then 1 else 0) := by
  induction l with
  | nil =>
    intro t a b h
    simp at h
  | cons x xs ih =>
    intro t a b h
    cases t with
    | zero =>
      simp only [List.getElem?_cons_zero, Option.some_inj] at h
      subst h
      simp only [List.set_cons_zero, List.countP_cons]
      omega
    | succ t =>
      simp only [List.getElem?_cons_succ] at h
      simp only [List.set_cons_succ, List.countP_cons]
      have := ih t a b h
      omega

theorem countP_set_same (p : WTask → Bool) (l : List WTask) (t : Nat) (a b : WTask)
    (h : l[t]? = some a) (hab : p a = p b) :
    (l.set t b).countP p = l.countP p := by
  have hc := countP_set p l t a b h
  rw [hab] at hc
  omega

theorem countP_set_up (p : WTask → Bool) (l : List WTask) (t : Nat) (a b : WTask)
    (h : l[t]? = some a) (ha : p a = false) (hb : p b = true) :
    (l.set t b).countP p = l.countP p + 1 := by
  have hc := countP_set p l t a b h
  rw [ha, hb] at hc
  simp at hc
  omega

theorem countP_set_down (p : WTask → Bool) (l : List WTask) (t : Nat) (a b : WTask)
    (h : l[t]? = some a) (ha : p a = true) (hb : p b = false) :
    (l.set t b).countP p + 1 = l.countP p := by
  have hc := countP_set p l t a b h
  rw [ha, hb] at hc
  simp at hc
  omega

theorem inFlight_step (env : Env) (s : SysState) (t : Nat)
    (h : inFlight s + s.sem = 20) :
    inFlight (stepTask env s t) + (stepTask env s t).sem = 20 := by
  cases hg : s.tasks[t]? with
  | none =>
    unfold stepTask
    rw [hg]
    exact h
  | some tk =>
    obtain ⟨ip, pc, callIdx, result⟩ := tk
    cases pc with
    | done =>
      unfold stepTask
      rw [hg]
      exact h
    | start =>
      unfold stepTask
      rw [hg]
      dsimp only
      cases hc : lookupCache s.cache ip with
      | some v =>
        unfold inFlight at h ⊢
        dsimp only
        rw [countP_set_same isInFlight s.tasks t ⟨ip, .start, callIdx, result⟩
          ⟨ip, .done, callIdx, some v⟩ hg rfl]
        exact h
      | none =>
        by_cases hs : s.sem > 0
        · rw [if_pos hs]
          unfold acquireSem
          unfold inFlight at h ⊢
          dsimp only
          rw [countP_set_up isInFlight s.tasks t ⟨ip, .start, callIdx, result⟩
            ⟨ip, .fetchPrimary, s.calls, result⟩ hg rfl rfl]
          omega
        · rw [if_neg hs]
          unfold inFlight at h ⊢
          dsimp only
          rw [countP_set_same isInFlight s.tasks t ⟨ip, .start, callIdx, result⟩
            ⟨ip, .waiting, callIdx, result⟩ hg rfl]
          exact h
    | waiting =>
      unfold stepTask
      rw [hg]
      dsimp only
      by_cases hs : s.sem > 0
      · rw [if_pos hs]
        unfold acquireSem
        unfold inFlight at h ⊢
        dsimp only
        rw [countP_set_up isInFlight s.tasks t ⟨ip, .waiting, callIdx, result⟩
          ⟨ip, .fetchPrimary, s.calls, result⟩ hg rfl rfl]
        omega
      · rw [if_neg hs]
        exact h
    | fetchPrimary =>
      unfold stepTask
      rw [hg]
      dsimp only
      by_cases hr : pyFalsyS (env.primary callIdx ip) = true
      · rw [if_pos hr]
        unfold inFlight at h ⊢
        dsimp only
        rw [countP_set_same isInFlight s.tasks t ⟨ip, .fetchPrimary, callIdx, result⟩
          ⟨ip, .fetchFallback, callIdx, result⟩ hg rfl]
        exact h
      · rw [if_neg hr]
        unfold inFlight at h ⊢
        dsimp only
        have hd := countP_set_down isInFlight s.tasks t ⟨ip, .fetchPrimary, callIdx, result⟩
          ⟨ip, .done, callIdx, some ((env.primary callIdx ip).getD [])⟩ hg rfl rfl
        omega
    | fetchFallback =>
      unfold stepTask
      rw [hg]
      unfold inFlight at h ⊢
      dsimp only
      have hd := countP_set_down isInFlight s.tasks t ⟨ip, .fetchFallback, callIdx, result⟩
        ⟨ip, .done, callIdx,
          some (if pyFalsyS (env.fallback callIdx ip) = true then sentinel
            else (env.fallback callIdx ip).getD [])⟩ hg rfl rfl
      omega

theorem inFlight_run (env : Env) (sched : List Nat) :
    ∀ s : SysState, inFlight s + s.sem = 20 →
      inFlight (run env s sched) + (run env s sched).sem = 20 := by
  induction sched with
  | nil => intro s hs; exact hs
  | cons t rest ih =>
    intro s hs
    exact ih (stepTask env s t) (inFlight_step env s t hs)

/-- C8 (confirmed): at every point of every run — whatever the schedule and
the service behaviour — at most `MAX_CONCURRENT_REQUESTS = 20` tasks have an
outstanding lookup-service HTTP call: the semaphore counter plus the number
of in-flight calls is invariantly 20.  DNS resolution is not part of the
semaphore region and cache hits return without acquiring, so neither counts
against the limit. -/
theorem concurrency_bound (env : Env) (ips : List Nat) (sched : List Nat) :
    inFlight (run env (initState ips) sched) ≤ 20 := by
  have h0 : inFlight (initState ips) + (initState ips).sem = 20 := by
    unfold inFlight initState
    simp only [List.countP_map]
    rw [List.countP_eq_zero.mpr]
    intro a _
    simp [Function.comp, isInFlight]
  have := inFlight_run env sched (initState ips) h0
  omega

theorem lookupCache_mem (c : List (Nat × List Char)) (i : Nat) (v : List Char)
    (h : lookupCache c i = some v) : (i, v) ∈ c := by
  induction c with
  | nil => simp [lookupCache] at h
  | cons e rest ih =>
    obtain ⟨k, w⟩ := e
    unfold lookupCache at h
    by_cases he : k = i
    · rw [if_pos he] at h
      injection h with h
      rw [← he, ← h]
      exact List.mem_cons_self _ _
    · rw [if_neg he] at h
      exact List.mem_cons_of_mem _ (ih h)

/-- Coherence invariant of a run under IP-deterministic services: every
cache entry and every finished task carry the chain outcome of their IP, and
every task parked between its two fetches saw a falsy primary result. -/
def coherent (env : Env) (s : SysState) : Prop :=
  (∀ e ∈ s.cache, e.2 = chainOutcome env 0 e.1) ∧
  (∀ tk ∈ s.tasks, tk.pc = .done → tk.result = some (chainOutcome env 0 tk.ip)) ∧
  (∀ tk ∈ s.tasks, tk.pc = .fetchFallback →
    pyFalsyS (env.primary tk.callIdx tk.ip) = true)

theorem coherent_step (env : Env)
    (hdet : ∀ k i, chainOutcome env k i = chainOutcome env 0 i)
    (s : SysState) (t : Nat) (h : coherent env s) :
    coherent env (stepTask env s t) := by
  obtain ⟨hcache, hdone, hfb⟩ := h
  cases hg : s.tasks[t]? with
  | none =>
    unfold stepTask
    rw [hg]
    exact ⟨hcache, hdone, hfb⟩
  | some tk =>
    obtain ⟨ip, pc, callIdx, result⟩ := tk
    have htk : (⟨ip, pc, callIdx, result⟩ : WTask) ∈ s.tasks := List.getElem?_mem hg
    cases pc with
    | done =>
      unfold stepTask
      rw [hg]
      exact ⟨hcache, hdone, hfb⟩
    | start =>
      unfold stepTask
      rw [hg]
      dsimp only
      cases hc : lookupCache s.cache ip with
      | some v =>
        have hv : v = chainOutcome env 0 ip := hcache (ip, v) (lookupCache_mem _ _ _ hc)
        refine ⟨hcache, ?_, ?_⟩
        · intro tk' hmem hpc'
          rcases List.mem_or_eq_of_mem_set hmem with hmem' | rfl
          · exact hdone tk' hmem' hpc'
          · simpa using congrArg some hv
        · intro tk' hmem hpc'
          rcases List.mem_or_eq_of_mem_set hmem with hmem' | rfl
          · exact hfb tk' hmem' hpc'
          · simp at hpc'
      | none =>
        by_cases hs : s.sem > 0
        · rw [if_pos hs]
          unfold acquireSem
          refine ⟨hcache, ?_, ?_⟩
          · intro tk' hmem hpc'
            rcases List.mem_or_eq_of_mem_set hmem with hmem' | rfl
            · exact hdone tk' hmem' hpc'
            · simp at hpc'
          · intro tk' hmem hpc'
            rcases List.mem_or_eq_of_mem_set hmem with hmem' | rfl
            · exact hfb tk' hmem' hpc'
            · simp at hpc'
        · rw [if_neg hs]
          refine ⟨hcache, ?_, ?_⟩
          · intro tk' hmem hpc'
            rcases List.mem_or_eq_of_mem_set hmem with hmem' | rfl
            · exact hdone tk' hmem' hpc'
            · simp at hpc'
          · intro tk' hmem hpc'
            rcases List.mem_or_eq_of_mem_set hmem with hmem' | rfl
            · exact hfb tk' hmem' hpc'
            · simp at hpc'
    | waiting =>
      unfold stepTask
      rw [hg]
      dsimp only
      by_cases hs : s.sem > 0
      · rw [if_pos hs]
        unfold acquireSem
        refine ⟨hcache, ?_, ?_⟩
        · intro tk' hmem hpc'
          rcases List.mem_or_eq_of_mem_set hmem with hmem' | rfl
          · exact hdone tk' hmem' hpc'
          · simp at hpc'
        · intro tk' hmem hpc'
          rcases List.mem_or_eq_of_mem_set hmem with hmem' | rfl
          · exact hfb tk' hmem' hpc'
          · simp at hpc'
      · rw [if_neg hs]
        exact ⟨hcache, hdone, hfb⟩
    | fetchPrimary =>
      unfold stepTask
      rw [hg]
      dsimp only
      by_cases hr : pyFalsyS (env.primary callIdx ip) = true
      · rw [if_pos hr]
        refine ⟨hcache, ?_, ?_⟩
        · intro tk' hmem hpc'
          rcases List.mem_or_eq_of_mem_set hmem with hmem' | rfl
          · exact hdone tk' hmem' hpc'
          · simp at hpc'
        · intro tk' hmem hpc'
          rcases List.mem_or_eq_of_mem_set hmem with hmem' | rfl
          · exact hfb tk' hmem' hpc'
          · exact hr
      · rw [if_neg hr]
        have hrf : pyFalsyS (env.primary callIdx ip) = false := by
          simpa using hr
        have hout : (env.primary callIdx ip).getD [] = chainOutcome env 0 ip := by
          rw [← hdet callIdx ip]
          unfold chainOutcome
          dsimp only
          rw [hrf]
          simp
        refine ⟨?_, ?_, ?_⟩
        · intro e hmem
          rcases List.mem_cons.mp hmem with rfl | hmem'
          · exact hout
          · exact hcache e hmem'
        · intro tk' hmem hpc'
          rcases List.mem_or_eq_of_mem_set hmem with hmem' | rfl
          · exact hdone tk' hmem' hpc'
          · simpa using congrArg some hout
        · intro tk' hmem hpc'
          rcases List.mem_or_eq_of_mem_set hmem with hmem' | rfl
          · exact hfb tk' hmem' hpc'
          · simp at hpc'
    | fetchFallback =>
      unfold stepTask
      rw [hg]
      dsimp only
      have hpf : pyFalsyS (env.primary callIdx ip) = true :=
        hfb ⟨ip, .fetchFallback, callIdx, result⟩ htk rfl
      have hout : (if pyFalsyS (env.fallback callIdx ip) = true then sentinel
          else (env.fallback callIdx ip).getD []) = chainOutcome env 0 ip := by
        rw [← hdet callIdx ip]
        unfold chainOutcome
        dsimp only
        rw [hpf]
        simp
      refine ⟨?_, ?_, ?_⟩
      · intro e hmem
        rcases List.mem_cons.mp hmem with rfl | hmem'
        · exact hout
        · exact hcache e hmem'
      · intro tk' hmem hpc'
        rcases List.mem_or_eq_of_mem_set hmem with hmem' | rfl
        · exact hdone tk' hmem' hpc'
        · simpa using congrArg some hout
      · intro tk' hmem hpc'
        rcases List.mem_or_eq_of_mem_set hmem with hmem' | rfl
        · exact hfb tk' hmem' hpc'
        · simp at hpc'

theorem coherent_run (env : Env)
    (hdet : ∀ k i, chainOutcome env k i = chainOutcome env 0 i)
    (sched : List Nat) :
    ∀ s : SysState, coherent env s → coherent env (run env s sched) := by
  induction sched with
  | nil => intro s hs; exact hs
  | cons t rest ih =>
    intro s hs
    exact ih (stepTask env s t) (coherent_step env hdet s t hs)

theorem coherent_init (env : Env) (ips : List Nat) : coherent env (initState ips) := by
  refine ⟨?_, ?_, ?_⟩
  · intro e he
    simp [initState] at he
  · intro tk hmem hpc
    simp [initState] at hmem
    rcases hmem with ⟨i, _, rfl⟩
    simp at hpc
  · intro tk hmem hpc
    simp [initState] at hmem
    rcases hmem with ⟨i, _, rfl⟩
    simp at hpc

/-- C2 (amended): the shared cache of `get_country_code` does not coalesce
concurrent misses — several work units racing on one IP may each invoke the
Country Lookup Chain (see the counterexample).  When the chain outcome is
determined by the IP alone (services answering consistently within the run),
every pair of finished work units for the same IP still observes the
identical CountryCode value, under every schedule. -/
theorem cache_coherence_deterministic (env : Env)
    (hdet : ∀ k i, chainOutcome env k i = chainOutcome env 0 i)
    (ips sched : List Nat) :
    ∀ a ∈ (run env (initState ips) sched).tasks,
      ∀ b ∈ (run env (initState ips) sched).tasks,
        a.ip = b.ip → a.pc = .done → b.pc = .done → a.result = b.result := by
  have hco := coherent_run env hdet sched (initState ips) (coherent_init env ips)
  intro a ha b hb hip hpa hpb
  rw [hco.2.1 a ha hpa, hco.2.1 b hb hpb, hip]

/-- C2 witness: under constant services, the two tasks racing on IP `3`
under the interleaved schedule both finish, and the coherence theorem
applied to their final records yields equal results. -/
theorem cache_coherence_witness :
    (⟨3, .done, 0, some (toL "US")⟩ : WTask).result =
      (⟨3, .done, 1, some (toL "US")⟩ : WTask).result :=
  cache_coherence_deterministic ⟨fun _ _ => some (toL "US"), fun _ _ => none⟩
    (fun _ _ => rfl) [3, 3] [0, 1, 0, 1]
    ⟨3, .done, 0, some (toL "US")⟩ (by decide)
    ⟨3, .done, 1, some (toL "US")⟩ (by decide) rfl rfl rfl

/-- Invariant for C9: every cache entry for IP `i` holds the sentinel. -/
def cacheSentinelAt (i : Nat) (s : SysState) : Prop :=
  ∀ e ∈ s.cache, e.1 = i → e.2 = sentinel

theorem cacheSentinelAt_step (env : Env) (i : Nat)
    (hp : ∀ k, pyFalsyS (env.primary k i) = true)
    (hf : ∀ k, pyFalsyS (env.fallback k i) = true)
    (s : SysState) (t : Nat) (h : cacheSentinelAt i s) :
    cacheSentinelAt i (stepTask env s t) := by
  cases hg : s.tasks[t]? with
  | none =>
    unfold stepTask
    rw [hg]
    exact h
  | some tk =>
    obtain ⟨ip, pc, callIdx, result⟩ := tk
    cases pc with
    | done =>
      unfold stepTask
      rw [hg]
      exact h
    | start =>
      unfold stepTask
      rw [hg]
      dsimp only
      cases hc : lookupCache s.cache ip with
      | some v => exact h
      | none =>
        by_cases hs : s.sem > 0
        · rw [if_pos hs]
          exact h
        · rw [if_neg hs]
          exact h
    | waiting =>
      unfold stepTask
      rw [hg]
      dsimp only
      by_cases hs : s.sem > 0
      · rw [if_pos hs]
        exact h
      · rw [if_neg hs]
        exact h
    | fetchPrimary =>
      unfold stepTask
      rw [hg]
      dsimp only
      by_cases hr : pyFalsyS (env.primary callIdx ip) = true
      · rw [if_pos hr]
        exact h
      · rw [if_neg hr]
        intro e hmem hei
        rcases List.mem_cons.mp hmem with rfl | hmem'
        · have hipi : ip = i := hei
          rw [hipi] at hr
          exact absurd (hp callIdx) hr
        · exact h e hmem' hei
    | fetchFallback =>
      unfold stepTask
      rw [hg]
      dsimp only
      intro e hmem hei
      rcases List.mem_cons.mp hmem with rfl | hmem'
      · dsimp only at hei ⊢
        rw [hei, hf callIdx]
        simp
      · exact h e hmem' hei

theorem cacheSentinelAt_run (env : Env) (i : Nat)
    (hp : ∀ k, pyFalsyS (env.primary k i) = true)
    (hf : ∀ k, pyFalsyS (env.fallback k i) = true)
    (sched : List Nat) :
    ∀ s : SysState, cacheSentinelAt i s → cacheSentinelAt i (run env s sched) := by
  induction sched with
  | nil => intro s hs; exact hs
  | cons t rest ih =>
    intro s hs
    exact ih (stepTask env s t) (cacheSentinelAt_step env i hp hf s t hs)

/-- C9 (confirmed): when both lookup services fail for an IP throughout the
run, the sentinel `"xXx"` itself is what gets stored in the cache under that
IP — every cache entry for that IP is the sentinel in every reachable state —
and any work unit for that IP whose cache check runs after such an entry
exists finishes immediately with the cached sentinel, performing no further
chain invocation (the invocation log is unchanged by its step). -/
theorem negative_caching (env : Env) (i : Nat)
    (hp : ∀ k, pyFalsyS (env.primary k i) = true)
    (hf : ∀ k, pyFalsyS (env.fallback k i) = true)
    (ips sched : List Nat) :
    cacheSentinelAt i (run env (initState ips) sched) ∧
    (∀ t callIdx result,
      (run env (initState ips) sched).tasks[t]? = some ⟨i, .start, callIdx, result⟩ →
      ∀ v, lookupCache (run env (initState ips) sched).cache i = some v →
        (stepTask env (run env (initState ips) sched) t).callLog =
          (run env (initState ips) sched).callLog ∧
        (stepTask env (run env (initState ips) sched) t).tasks[t]? =
          some ⟨i, .done, callIdx, some sentinel⟩) := by
  have hinv : cacheSentinelAt i (run env (initState ips) sched) := by
    refine cacheSentinelAt_run env i hp hf sched (initState ips) ?_
    intro e he
    simp [initState] at he
  refine ⟨hinv, ?_⟩
  intro t callIdx result hg v hv
  have hvs : v = sentinel :=
    hinv (i, v) (lookupCache_mem _ _ _ hv) rfl
  have hlt : t < (run env (initState ips) sched).tasks.length := by
    rcases List.getElem?_eq_some_iff.mp hg with ⟨hl, _⟩
    exact hl
  constructor
  · unfold stepTask
    rw [hg]
    dsimp only
    rw [hv]
  · unfold stepTask
    rw [hg]
    dsimp only
    rw [hv]
    dsimp only
    rw [List.getElem?_set_self hlt, hvs]

/-- C9 witness: both services always fail; after task 0 completes (three
steps), the cache holds the sentinel for IP `5`, and task 1's cache-check
step finishes it with the cached sentinel without a new invocation. -/
theorem negative_caching_witness :
    (stepTask ⟨fun _ _ => none, fun _ _ => none⟩
        (run ⟨fun _ _ => none, fun _ _ => none⟩ (initState [5, 5]) [0, 0, 0]) 1).callLog =
      (run ⟨fun _ _ => none, fun _ _ => none⟩ (initState [5, 5]) [0, 0, 0]).callLog ∧
    (stepTask ⟨fun _ _ => none, fun _ _ => none⟩
        (run ⟨fun _ _ => none, fun _ _ => none⟩ (initState [5, 5]) [0, 0, 0]) 1).tasks[1]? =
      some ⟨5, .done, 0, some sentinel⟩ :=
  (negative_caching ⟨fun _ _ => none, fun _ _ => none⟩ 5 (fun _ => rfl) (fun _ => rfl)
      [5, 5] [0, 0, 0]).2 1 0 none (by decide) sentinel (by decide)

end Rewriter
